import Mathlib

/-!
Shallow embedding of `file_loader.py` from the sct-pipeline/balgrist-sci
repository, together with theorems settling the behavioural claims about the
interactive selection loop, sidecar validation, filename sorting, the BIDS
copy step, the participants registry, and the control flow of `main`.

Strings are modelled as Lean `String` (a list of characters); the filesystem
as the list of existing file paths; the operator's successive inputs as a
list of strings, one per `input()` call, with `none` results standing for a
loop that never receives an acceptable input.  The image metadata columns
(`Dimensions`, `Pixel Size`) are produced by the external `nibabel` library
and are out of scope per the specification; the table is therefore modelled
by its `File Name` column, which is the only column the program reads back.
-/

/-- Python's `str.replace(pat, repl)` on character lists, for a nonempty
pattern `p :: ps`: replace every non-overlapping occurrence, left to right.
The fuel argument only drives structural recursion; any fuel of at least the
list's length gives the same value (`replaceAllGo_fuel`). -/
def replaceAllGo (p : Char) (ps repl : List Char) : Nat → List Char → List Char
  | _, [] => []
  | 0, l => l
  | fuel + 1, c :: cs =>
    if (p :: ps).isPrefixOf (c :: cs) then
      repl ++ replaceAllGo p ps repl fuel (cs.drop ps.length)
    else
      c :: replaceAllGo p ps repl fuel cs

/-- `replaceAllGo` ignores the exact amount of fuel as long as it suffices. -/
theorem replaceAllGo_fuel (p : Char) (ps repl : List Char) :
    ∀ (fuel₁ : Nat) (l : List Char) (fuel₂ : Nat), l.length ≤ fuel₁ → l.length ≤ fuel₂ →
      replaceAllGo p ps repl fuel₁ l = replaceAllGo p ps repl fuel₂ l := by
  intro fuel₁
  induction fuel₁ with
  | zero =>
    intro l fuel₂ h₁ _
    have : l = [] := List.length_eq_zero.mp (Nat.le_zero.mp h₁)
    subst this
    cases fuel₂ <;> rfl
  | succ f₁ ih =>
    intro l fuel₂ h₁ h₂
    cases l with
    | nil => cases fuel₂ <;> rfl
    | cons c cs =>
      cases fuel₂ with
      | zero => simp at h₂
      | succ f₂ =>
        simp only [replaceAllGo]
        by_cases hpre : (p :: ps).isPrefixOf (c :: cs) = true
        · simp only [hpre, if_true]
          have hlen : (cs.drop ps.length).length ≤ cs.length := by
            simp [List.length_drop]
          simp only [List.length_cons, Nat.succ_le_succ_iff] at h₁ h₂
          rw [ih (cs.drop ps.length) f₂ (le_trans hlen h₁) (le_trans hlen h₂)]
        · simp only [Bool.not_eq_true] at hpre
          simp only [hpre, Bool.false_eq_true, if_false]
          simp only [List.length_cons, Nat.succ_le_succ_iff] at h₁ h₂
          rw [ih cs f₂ h₁ h₂]

/-- Replace every non-overlapping occurrence of `p :: ps`, left to right. -/
def replaceAll (p : Char) (ps repl : List Char) (l : List Char) : List Char :=
  replaceAllGo p ps repl l.length l

/-- Unfolding lemma for `replaceAll` on the empty list. -/
theorem replaceAll_nil (p : Char) (ps repl : List Char) : replaceAll p ps repl [] = [] := rfl

/-- Unfolding lemma for `replaceAll` on a nonempty list. -/
theorem replaceAll_cons (p : Char) (ps repl : List Char) (c : Char) (cs : List Char) :
    replaceAll p ps repl (c :: cs) =
      if (p :: ps).isPrefixOf (c :: cs) then
        repl ++ replaceAll p ps repl (cs.drop ps.length)
      else
        c :: replaceAll p ps repl cs := by
  show replaceAllGo p ps repl (cs.length + 1) (c :: cs) = _
  simp only [replaceAllGo]
  by_cases hpre : (p :: ps).isPrefixOf (c :: cs) = true
  · simp only [hpre, if_true]
    rw [replaceAllGo_fuel p ps repl cs.length (cs.drop ps.length) (cs.drop ps.length).length
      (by simp [List.length_drop]) le_rfl]
    rfl
  · simp only [Bool.not_eq_true] at hpre
    simp [hpre, replaceAll]

/-- Python's `s.replace(pat, repl)`.  Every call site in the source uses a
nonempty literal pattern, so the empty-pattern case never arises. -/
def pyReplace (s pat repl : String) : String :=
  match pat.data with
  | [] => s
  | p :: ps => ⟨replaceAll p ps repl.data s.data⟩

/-- Python's `b.startswith(pre)` / `os.path.isabs`-style check used by `os.path.join`. -/
def startsWithStr (s pre : String) : Bool := pre.data.isPrefixOf s.data

/-- Python's `s.endswith(suf)`. -/
def endsWithStr (s suf : String) : Bool := suf.data.isSuffixOf s.data

/-- Python's `os.path.join(a, b)` on POSIX: `b` wins when absolute, otherwise
a single separator is inserted unless `a` is empty or already ends in one. -/
def pathJoin (a b : String) : String :=
  if startsWithStr b "/" then b
  else if a = "" ∨ endsWithStr a "/" then a ++ b
  else a ++ "/" ++ b

/-- True when `s.strip()` is empty, i.e. `s` is all whitespace: the source's
`if not user_input.strip()` emptiness test. -/
def isBlank (s : String) : Bool := s.data.all Char.isWhitespace

/-- Strip leading and trailing whitespace, as `int()` does before parsing. -/
def stripWs (cs : List Char) : List Char :=
  ((cs.dropWhile Char.isWhitespace).reverse.dropWhile Char.isWhitespace).reverse

/-- After an initial digit, `int()` accepts further digits with single
underscores allowed only between digits. -/
def digitGroups : List Char → Bool
  | [] => true
  | c :: rest =>
    if c = '_' then
      match rest with
      | [] => false
      | d :: rest2 => d.isDigit && digitGroups rest2
    else c.isDigit && digitGroups rest

/-- A nonempty digit body for `int()`: a digit followed by `digitGroups`. -/
def digitsBody (cs : List Char) : Bool :=
  match cs with
  | [] => false
  | c :: rest => c.isDigit && digitGroups rest

/-- Numeric value of a digit body, ignoring grouping underscores. -/
def digitsVal (cs : List Char) : Nat :=
  (cs.filter (fun c => c ≠ '_')).foldl (fun a c => 10 * a + (c.toNat - '0'.toNat)) 0

/-- Python's `int(s)`: strip surrounding whitespace, allow one optional sign,
then a nonempty digit body; `none` models the `ValueError` raise. -/
def pyInt? (s : String) : Option Int :=
  match stripWs s.data with
  | '-' :: rest => if digitsBody rest then some (-(digitsVal rest : Int)) else none
  | '+' :: rest => if digitsBody rest then some ((digitsVal rest : Int)) else none
  | cs => if digitsBody cs then some ((digitsVal cs : Int)) else none

/-- Python's `s.split(sep)` for a single-character separator: splits at every
occurrence and keeps empty pieces, so the result is always nonempty. -/
def splitOnChar (sep : Char) : List Char → List (List Char)
  | [] => [[]]
  | c :: cs =>
    match splitOnChar sep cs with
    | [] => [[]]
    | h :: t => if c = sep then [] :: h :: t else (c :: h) :: t

/-- The token `x.split('_')[-1].split('.')[0]`: the last underscore-separated
piece of the filename, up to its first dot. -/
def seriesToken (x : String) : String :=
  ⟨(splitOnChar '.' ((splitOnChar '_' x.data).getLastD [])).headD []⟩

/-- The sort key of `get_nii_info_dataframe`:
`int(x.split('_')[-1].split('.')[0])`. -/
def seriesKey? (x : String) : Option Int :=
  pyInt? (seriesToken x)

/-- The filesystem is the list of existing file paths; `os.path.isfile`. -/
abbrev FileSystem := List String

/-- Python's `os.path.isfile` over the modelled filesystem. -/
def isfile (fs : FileSystem) (p : String) : Bool := fs.contains p

/-- Result of `get_nii_info_dataframe`: `exit(1)` when no NIfTI file was
produced, an uncaught `ValueError` when a sort key fails to parse, or the
table, modelled by its `File Name` column. -/
inductive DfResult where
  | exit1 : DfResult
  | valueError : DfResult
  | ok : List String → DfResult
  deriving DecidableEq

/-- Decorate each file with its sort key; `none` when any key raises. CPython
computes all keys (in list order) before comparing, so one bad key fails the
whole sort. -/
def keysOf : List String → Option (List (String × Int))
  | [] => some []
  | f :: fs =>
    match seriesKey? f, keysOf fs with
    | some k, some ps => some ((f, k) :: ps)
    | _, _ => none

/-- Embedding of `get_nii_info_dataframe`: filter to `.nii.gz` files,
`exit(1)` on an empty list, then stable-sort by the numeric series suffix.
Python's `list.sort` is stable, and a stable sort under a total key order has
a unique output, so the stable `insertionSort` computes exactly it.  The
metadata columns read from `nibabel` headers are external and not modelled;
the table is its `File Name` column. -/
def get_nii_info_dataframe (files : List String) : DfResult :=
  let nii_files := files.filter (fun f => endsWithStr f ".nii.gz")
  if nii_files.isEmpty then .exit1
  else
    match keysOf nii_files with
    | none => .valueError
    | some ps => .ok ((List.insertionSort (fun a b => a.2 ≤ b.2) ps).map Prod.fst)

/-- Embedding of `validate_dwi_image`: strip `.nii` and `.gz` (Python
`replace`, i.e. every occurrence) and require both gradient-table sidecars. -/
def dwiBase (fname : String) : String :=
  pyReplace (pyReplace fname ".nii" "") ".gz" ""

/-- Embedding of `validate_dwi_image` (body): both sidecars must exist. -/
def validate_dwi_image (fs : FileSystem) (fname : String) : Bool :=
  let fname_bval := dwiBase fname ++ ".bval"
  let fname_bvec := dwiBase fname ++ ".bvec"
  if !isfile fs fname_bval || !isfile fs fname_bvec then false else true

/-- Embedding of `select_image`.  The operator's successive `input()` lines
are consumed from the list; the surviving suffix is returned with the chosen
path, and `none` models the loop running out of inputs (it never returns on
an invalid line). -/
def select_image (fs : FileSystem) (contrast : String) (nii_info_df : List String)
    (temp_folder : String) : List String → Option (String × List String)
  | [] => none
  | user_input :: rest =>
    if isBlank user_input then
      select_image fs contrast nii_info_df temp_folder rest
    else
      match pyInt? user_input with
      | none => select_image fs contrast nii_info_df temp_folder rest
      | some row_number =>
        if row_number < 0 ∨ (nii_info_df.length : Int) ≤ row_number then
          select_image fs contrast nii_info_df temp_folder rest
        else
          let fname := nii_info_df.getD row_number.toNat ""
          if contrast = "dwi" then
            if validate_dwi_image fs (pathJoin temp_folder fname) then
              some (pathJoin temp_folder fname, rest)
            else
              select_image fs contrast nii_info_df temp_folder rest
          else
            some (pathJoin temp_folder fname, rest)

/-- The row index accepted by the three input checks of `select_image`
(nonempty, integer, in `[0, len)`), before any DWI sidecar validation. -/
def rowIndex? (df : List String) (s : String) : Option Nat :=
  if isBlank s then none
  else
    match pyInt? s with
    | none => none
    | some n => if n < 0 ∨ (df.length : Int) ≤ n then none else some n.toNat

/-- The row index on which `select_image` actually returns: a valid row index
that additionally passes DWI sidecar validation when the contrast is `dwi`. -/
def acceptedIndex? (fs : FileSystem) (contrast : String) (df : List String)
    (temp : String) (s : String) : Option Nat :=
  match rowIndex? df s with
  | none => none
  | some i =>
    if contrast = "dwi" then
      if validate_dwi_image fs (pathJoin temp (df.getD i "")) then some i else none
    else some i

/-- Embedding of `copy_files_to_bids_folder`: the list of `(src, dst)` copies
performed, in program order, and the returned destination image path. -/
def copy_files_to_bids_folder (contrast fname output_folder participant_id session_id : String) :
    List (String × String) × String :=
  let contrast_folder := if contrast = "dwi" then "dwi" else "anat"
  let out := pathJoin output_folder contrast_folder
  let fname_output := pathJoin out (participant_id ++ "_" ++ session_id ++ "_" ++ contrast ++ ".nii.gz")
  let copies :=
    [(fname, fname_output),
     (pyReplace fname ".nii.gz" ".json", pyReplace fname_output ".nii.gz" ".json")]
  let copies :=
    if contrast = "dwi" then
      copies ++ [(pyReplace fname ".nii.gz" ".bval", pyReplace fname_output ".nii.gz" ".bval"),
                 (pyReplace fname ".nii.gz" ".bvec", pyReplace fname_output ".nii.gz" ".bvec")]
    else copies
  (copies, fname_output)

/-- Embedding of `write_participants_tsv`: the file content (list of rows)
after the call, given the content before it (`none` when the file did not
exist).  The file is opened in append mode, the header is written only when
the file is new, and `None` age/sex become `n/a`. -/
def write_participants_tsv (existing : Option (List (List String)))
    (participant_id session_id source_id : String) (age sex : Option String) :
    List (List String) :=
  let row := [participant_id, session_id, source_id, age.getD "n/a", sex.getD "n/a"]
  match existing with
  | some rows => rows ++ [row]
  | none => [["participant_id", "ses_id", "source_id", "age", "sex"], row]

/-- Python's `s.lower()` (the answers compared against are ASCII). -/
def lowerStr (s : String) : String := ⟨s.data.map Char.toLower⟩

/-- The overwrite confirmation loop of `main`: lowercase each answer, accept
`y`/`yes` (overwrite) and `n`/`no` (skip), re-prompt otherwise; `none` models
never receiving an acceptable answer. -/
def overwriteLoop : List String → Option Bool
  | [] => none
  | a :: rest =>
    let user_input := lowerStr a
    if user_input = "y" ∨ user_input = "yes" then some true
    else if user_input = "n" ∨ user_input = "no" then some false
    else overwriteLoop rest

/-- Observable events of a run of `main`, in program order. -/
inductive Event where
  | promptedOverwrite : Event
  | removedExisting : Event
  | converted : Event
  | selected : String → String → Event
  | copied : String → String → Event
  | removedTemp : Event
  | wroteTsv : Event
  deriving DecidableEq

/-- How a run of `main` ends. -/
inductive Outcome where
  | exitedDicomMissing : Outcome
  | skipped : Outcome
  | blockedOnInput : Outcome
  | exitedNoNii : Outcome
  | raisedValueError : Outcome
  | finished : Outcome
  deriving DecidableEq

/-- A run of `main`: its event trace and how it ended. -/
structure RunResult where
  events : List Event
  outcome : Outcome
  deriving DecidableEq

/-- The pattern occurs in `s` only as its suffix: it is a suffix of `s`, and
any suffix of `s` that begins with the pattern is the pattern itself. -/
def occursOnlyAsSuffix (pat s : String) : Prop :=
  pat.data <:+ s.data ∧ ∀ t ∈ s.data.tails, pat.data <+: t → t.length = pat.data.length

instance (pat s : String) : Decidable (occursOnlyAsSuffix pat s) := by
  unfold occursOnlyAsSuffix
  infer_instance

/-- The name with its final `.nii.gz` (7 characters) removed. -/
def stripNiiGz (s : String) : String := ⟨s.data.take (s.data.length - 7)⟩

/-- A decimal numeral: one or more ASCII digits and nothing else. -/
def isDecimalNumeral (s : String) : Bool := !s.data.isEmpty && s.data.all Char.isDigit

/-- Ordering of event classes in a trace: every `P`-event lies strictly
before every `Q`-event. -/
def eventsBefore (evs : List Event) (P Q : Event → Prop) : Prop :=
  ∀ i j (hi : i < evs.length) (hj : j < evs.length),
    P (evs.get ⟨i, hi⟩) → Q (evs.get ⟨j, hj⟩) → i < j

/-- The selection events of the first loop of `main`, in contrast order. -/
def selEvents (pairs : List (String × String)) : List Event :=
  pairs.map (fun cp => Event.selected cp.1 cp.2)

/-- The copy events of the second loop of `main`, in contrast order. -/
def cpEvents (output_folder participant_id session_id : String)
    (pairs : List (String × String)) : List Event :=
  pairs.map (fun cp =>
    Event.copied cp.1 (copy_files_to_bids_folder cp.1 cp.2 output_folder
      participant_id session_id).2)

/-- `main`'s `output_folder`: `os.path.join(bids_folder, participant_id, session_id)`. -/
def mainOutputFolder (bids_folder participant_id session_id : String) : String :=
  pathJoin (pathJoin bids_folder participant_id) session_id

/-- `main`'s scratch folder `temp_dcm2niix` inside the output folder. -/
def mainTempFolder (bids_folder participant_id session_id : String) : String :=
  pathJoin (mainOutputFolder bids_folder participant_id session_id) "temp_dcm2niix"

/-- The filesystem of the scratch folder after conversion: the converter's
output files, joined onto the scratch folder path. -/
def mainFs (bids_folder participant_id session_id : String) (files : List String) : FileSystem :=
  files.map (fun f => pathJoin (mainTempFolder bids_folder participant_id session_id) f)

/-- The selection loop of `main`: one `select_image` call per requested
contrast, threading the operator's input stream through the calls. -/
def selectAll (fs : FileSystem) (df : List String) (temp : String) :
    List String → List String → Option (List (String × String) × List String)
  | [], ins => some ([], ins)
  | c :: cs, ins =>
    match select_image fs c df temp ins with
    | none => none
    | some (p, ins') =>
      match selectAll fs df temp cs ins' with
      | none => none
      | some (ps, ins'') => some ((c, p) :: ps, ins'')

/-- The part of `main` after the conversion: build the table, run the
selection loop, copy every selected image, remove the scratch folder unless
`-debug` was given, then append the registry row. -/
def runBody (fs : FileSystem) (temp_folder output_folder participant_id session_id : String)
    (contrasts : List String) (files sel : List String) (debug : Bool) :
    List Event × Outcome :=
  match get_nii_info_dataframe files with
  | .exit1 => ([], .exitedNoNii)
  | .valueError => ([], .raisedValueError)
  | .ok df =>
    match selectAll fs df temp_folder contrasts sel with
    | none => ([], .blockedOnInput)
    | some (pairs, _) =>
      (selEvents pairs ++ cpEvents output_folder participant_id session_id pairs ++
        (if debug then [] else [Event.removedTemp]) ++ [Event.wroteTsv], .finished)

/-- Embedding of `main` after argument parsing.  `dicomExists` and
`destExists` are the two `os.path.isdir` checks; `overwriteAnswers` feeds the
overwrite prompt; `files` is the scratch-folder listing produced by the
external converter; `sel` feeds the selection prompts. -/
def runMain (dicomExists destExists : Bool) (overwriteAnswers : List String)
    (bids_folder participant_id session_id : String) (contrasts : List String)
    (files sel : List String) (debug : Bool) : RunResult :=
  if dicomExists = false then ⟨[], .exitedDicomMissing⟩
  else
    let output_folder := mainOutputFolder bids_folder participant_id session_id
    let temp_folder := mainTempFolder bids_folder participant_id session_id
    let fs := mainFs bids_folder participant_id session_id files
    if destExists then
      match overwriteLoop overwriteAnswers with
      | none => ⟨[Event.promptedOverwrite], .blockedOnInput⟩
      | some false => ⟨[Event.promptedOverwrite], .skipped⟩
      | some true =>
        let r := runBody fs temp_folder output_folder participant_id session_id contrasts files sel debug
        ⟨Event.promptedOverwrite :: Event.removedExisting :: Event.converted :: r.1, r.2⟩
    else
      let r := runBody fs temp_folder output_folder participant_id session_id contrasts files sel debug
      ⟨Event.converted :: r.1, r.2⟩

/-! ### Lemmas about the selection loop -/

/-- `List.getD` with an in-bounds index is `List.get`. -/
theorem getD_eq_get_of_lt {l : List String} {i : Nat} (hi : i < l.length) :
    l.getD i "" = l.get ⟨i, hi⟩ := by
  rw [List.getD_eq_getElem?_getD, List.getElem?_eq_getElem hi]
  simp [List.get_eq_getElem]

/-- One iteration of `select_image`: an input with an accepted index returns
the joined path, any other input re-enters the loop on the remaining inputs. -/
theorem select_image_cons (fs : FileSystem) (contrast : String) (df : List String)
    (temp s : String) (rest : List String) :
    select_image fs contrast df temp (s :: rest) =
      match acceptedIndex? fs contrast df temp s with
      | none => select_image fs contrast df temp rest
      | some i => some (pathJoin temp (df.getD i ""), rest) := by
  simp only [select_image, acceptedIndex?, rowIndex?]
  by_cases hb : isBlank s = true
  · simp [hb]
  · simp only [hb, Bool.false_eq_true, if_false]
    cases hp : pyInt? s with
    | none => simp
    | some n =>
      by_cases hr : n < 0 ∨ (df.length : Int) ≤ n
      · simp [hr]
      · simp only [hr, if_false]
        by_cases hc : contrast = "dwi"
        · subst hc
          by_cases hv : validate_dwi_image fs (pathJoin temp (df.getD n.toNat "")) = true
          · rw [List.getD_eq_getElem?_getD] at hv
            simp [hv]
          · simp only [Bool.not_eq_true] at hv
            rw [List.getD_eq_getElem?_getD] at hv
            simp [hv]
        · simp [hc]

/-- A row index accepted by the three input checks is in bounds. -/
theorem rowIndex?_lt {df : List String} {s : String} {i : Nat}
    (h : rowIndex? df s = some i) : i < df.length := by
  unfold rowIndex? at h
  by_cases hb : isBlank s = true
  · simp [hb] at h
  · simp only [hb, Bool.false_eq_true, if_false] at h
    cases hp : pyInt? s with
    | none => rw [hp] at h; cases h
    | some n =>
      rw [hp] at h
      by_cases hr : n < 0 ∨ (df.length : Int) ≤ n
      · simp [hr] at h
      · simp only [hr, if_false, Option.some.injEq] at h
        push_neg at hr
        omega

/-- The index on which `select_image` returns is in bounds. -/
theorem acceptedIndex?_lt {fs : FileSystem} {contrast : String} {df : List String}
    {temp s : String} {i : Nat}
    (h : acceptedIndex? fs contrast df temp s = some i) : i < df.length := by
  unfold acceptedIndex? at h
  split at h
  · cases h
  · rename_i j hr
    split at h
    · split at h
      · injection h with hji
        subst hji
        exact rowIndex?_lt hr
      · cases h
    · injection h with hji
      subst hji
      exact rowIndex?_lt hr

/-- Complete characterisation of a returning `select_image` run: the loop
skips every input before the first one with an accepted index, and returns
the scratch path of the table row at that index, which is in bounds. -/
theorem select_image_some {fs : FileSystem} {contrast : String} {df : List String}
    {temp : String} :
    ∀ {inputs : List String} {p : String} {rem : List String},
      select_image fs contrast df temp inputs = some (p, rem) →
      ∃ k, ∃ _hk : k < inputs.length,
        (∀ j, j < k → acceptedIndex? fs contrast df temp (inputs.getD j "") = none) ∧
        ∃ i, ∃ hi : i < df.length,
          acceptedIndex? fs contrast df temp (inputs.getD k "") = some i ∧
          p = pathJoin temp (df.get ⟨i, hi⟩) ∧ rem = inputs.drop (k + 1) := by
  intro inputs
  induction inputs with
  | nil => intro p rem h; simp [select_image] at h
  | cons s rest ih =>
    intro p rem h
    rw [select_image_cons] at h
    cases ha : acceptedIndex? fs contrast df temp s with
    | none =>
      rw [ha] at h
      obtain ⟨k, hk, hbefore, i, hi, hacc, hp, hrem⟩ := ih h
      refine ⟨k + 1, Nat.succ_lt_succ hk, ?_, i, hi, ?_, hp, ?_⟩
      · intro j hj
        cases j with
        | zero => simpa using ha
        | succ j' => simpa using hbefore j' (Nat.lt_of_succ_lt_succ hj)
      · simpa using hacc
      · simpa using hrem
    | some i =>
      rw [ha] at h
      have hi : i < df.length := acceptedIndex?_lt ha
      have hpair : pathJoin temp (df.getD i "") = p ∧ rest = rem := by
        have := h
        simp only [Option.some.injEq, Prod.mk.injEq] at this
        exact this
      refine ⟨0, Nat.succ_pos _, fun j hj => absurd hj (Nat.not_lt_zero _), i, hi, ?_, ?_, ?_⟩
      · simpa using ha
      · rw [← hpair.1]
        congr 1
        rw [List.getD_eq_getElem?_getD, List.getElem?_eq_getElem hi]
        simp [List.get_eq_getElem]
      · simpa using hpair.2.symm

/-- C2: for a non-empty image table, `select_image` re-prompts on every
empty, non-integer, or out-of-range input, and when it returns, the returned
value is the scratch folder joined with the table row at the first accepted
index, which is always in bounds. -/
theorem select_image_reprompts_and_in_bounds (fs : FileSystem) (contrast : String)
    (df : List String) (temp : String) (_hdf : df ≠ []) :
    (∀ s rest, rowIndex? df s = none →
        select_image fs contrast df temp (s :: rest) = select_image fs contrast df temp rest) ∧
    (∀ inputs p rem, select_image fs contrast df temp inputs = some (p, rem) →
        ∃ k, ∃ _hk : k < inputs.length,
          (∀ j, j < k → acceptedIndex? fs contrast df temp (inputs.getD j "") = none) ∧
          ∃ i, ∃ hi : i < df.length,
            acceptedIndex? fs contrast df temp (inputs.getD k "") = some i ∧
            p = pathJoin temp (df.get ⟨i, hi⟩) ∧ rem = inputs.drop (k + 1)) := by
  constructor
  · intro s rest hrow
    rw [select_image_cons]
    have : acceptedIndex? fs contrast df temp s = none := by
      unfold acceptedIndex?
      rw [hrow]
    rw [this]
  · intro inputs p rem h
    exact select_image_some h

/-- Witness for C2 at a concrete table and input stream: the invalid input
`"x"` is skipped, and the accepted input `"0"` yields row 0's path. -/
theorem select_image_reprompts_and_in_bounds_witness :
    (select_image [] "T2w" ["a_1.nii.gz", "b_2.nii.gz"] "/t" ["x", "0"] =
      select_image [] "T2w" ["a_1.nii.gz", "b_2.nii.gz"] "/t" ["0"]) ∧
    (∃ k, ∃ _hk : k < (["x", "0"] : List String).length,
      (∀ j, j < k → acceptedIndex? [] "T2w" ["a_1.nii.gz", "b_2.nii.gz"] "/t"
          ((["x", "0"] : List String).getD j "") = none) ∧
      ∃ i, ∃ hi : i < (["a_1.nii.gz", "b_2.nii.gz"] : List String).length,
        acceptedIndex? [] "T2w" ["a_1.nii.gz", "b_2.nii.gz"] "/t"
          ((["x", "0"] : List String).getD k "") = some i ∧
        "/t/a_1.nii.gz" = pathJoin "/t" ((["a_1.nii.gz", "b_2.nii.gz"] : List String).get ⟨i, hi⟩) ∧
        ([] : List String) = (["x", "0"] : List String).drop (k + 1)) :=
  ⟨(select_image_reprompts_and_in_bounds [] "T2w" ["a_1.nii.gz", "b_2.nii.gz"] "/t"
      (by decide)).1 "x" ["0"] (by decide),
   (select_image_reprompts_and_in_bounds [] "T2w" ["a_1.nii.gz", "b_2.nii.gz"] "/t"
      (by decide)).2 ["x", "0"] "/t/a_1.nii.gz" [] (by decide)⟩

/-- C1: sidecar validation for diffusion images: `validate_dwi_image` holds
exactly when both `.bval` and `.bvec` exist next to the image; for the `dwi`
contrast an in-range row whose sidecars are missing re-enters the loop, and a
returned `dwi` path always passes validation. -/
theorem dwi_selection_requires_sidecars (fs : FileSystem) (df : List String) (temp : String) :
    (∀ fname, validate_dwi_image fs fname = true ↔
        (isfile fs (dwiBase fname ++ ".bval") = true ∧
         isfile fs (dwiBase fname ++ ".bvec") = true)) ∧
    (∀ s rest i, rowIndex? df s = some i →
        validate_dwi_image fs (pathJoin temp (df.getD i "")) = false →
        select_image fs "dwi" df temp (s :: rest) = select_image fs "dwi" df temp rest) ∧
    (∀ inputs p rem, select_image fs "dwi" df temp inputs = some (p, rem) →
        validate_dwi_image fs p = true) := by
  refine ⟨?_, ?_, ?_⟩
  · intro fname
    unfold validate_dwi_image
    by_cases h1 : isfile fs (dwiBase fname ++ ".bval") = true <;>
      by_cases h2 : isfile fs (dwiBase fname ++ ".bvec") = true <;>
      simp [h1, h2]
  · intro s rest i hrow hval
    rw [select_image_cons]
    have hnone : acceptedIndex? fs "dwi" df temp s = none := by
      unfold acceptedIndex?
      rw [hrow]
      rw [List.getD_eq_getElem?_getD] at hval
      simp [hval]
    rw [hnone]
  · intro inputs p rem h
    obtain ⟨k, hk, _hbefore, i, hi, hacc, hp, _hrem⟩ := select_image_some h
    unfold acceptedIndex? at hacc
    split at hacc
    · cases hacc
    · rename_i j hrow
      split at hacc
      · split at hacc
        · rename_i hv
          injection hacc with hji
          subst hji
          rw [hp, ← getD_eq_get_of_lt hi]
          exact hv
        · cases hacc
      · rename_i hcontra
        exact absurd rfl hcontra

/-- Witness for C1: with sidecars present only for `d_5`, the in-range row 0
re-prompts, the equivalence holds at `d_5`, and the returned path validates. -/
theorem dwi_selection_requires_sidecars_witness :
    (validate_dwi_image ["/t/d_5.bval", "/t/d_5.bvec"] "/t/d_5.nii.gz" = true ↔
      (isfile ["/t/d_5.bval", "/t/d_5.bvec"] (dwiBase "/t/d_5.nii.gz" ++ ".bval") = true ∧
       isfile ["/t/d_5.bval", "/t/d_5.bvec"] (dwiBase "/t/d_5.nii.gz" ++ ".bvec") = true)) ∧
    (select_image ["/t/d_5.bval", "/t/d_5.bvec"] "dwi" ["a_1.nii.gz", "d_5.nii.gz"] "/t" ["0", "1"] =
      select_image ["/t/d_5.bval", "/t/d_5.bvec"] "dwi" ["a_1.nii.gz", "d_5.nii.gz"] "/t" ["1"]) ∧
    (validate_dwi_image ["/t/d_5.bval", "/t/d_5.bvec"] "/t/d_5.nii.gz" = true) :=
  ⟨(dwi_selection_requires_sidecars ["/t/d_5.bval", "/t/d_5.bvec"]
      ["a_1.nii.gz", "d_5.nii.gz"] "/t").1 "/t/d_5.nii.gz",
   (dwi_selection_requires_sidecars ["/t/d_5.bval", "/t/d_5.bvec"]
      ["a_1.nii.gz", "d_5.nii.gz"] "/t").2.1 "0" ["1"] 0 (by decide) (by decide),
   (dwi_selection_requires_sidecars ["/t/d_5.bval", "/t/d_5.bvec"]
      ["a_1.nii.gz", "d_5.nii.gz"] "/t").2.2 ["1"] "/t/d_5.nii.gz" [] (by decide)⟩

/-- C5: `write_participants_tsv` appends: a fresh file gets the header and
exactly one data row, an existing file keeps its content unchanged with the
one data row appended and no header, and `None` age/sex become `n/a`. -/
theorem write_participants_tsv_appends :
    ∀ (participant_id session_id source_id : String) (age sex : Option String)
      (prev : List (List String)),
      write_participants_tsv none participant_id session_id source_id age sex =
        [["participant_id", "ses_id", "source_id", "age", "sex"],
         [participant_id, session_id, source_id, age.getD "n/a", sex.getD "n/a"]] ∧
      write_participants_tsv (some prev) participant_id session_id source_id age sex =
        prev ++ [[participant_id, session_id, source_id, age.getD "n/a", sex.getD "n/a"]] ∧
      write_participants_tsv (some prev) participant_id session_id source_id none none =
        prev ++ [[participant_id, session_id, source_id, "n/a", "n/a"]] := by
  intro participant_id session_id source_id age sex prev
  exact ⟨rfl, rfl, rfl⟩

/-! ### Lemmas about the sort in `get_nii_info_dataframe` -/

/-- Decorating preserves the file list: the first components of `keysOf` are
the input files, in order. -/
theorem keysOf_map_fst : ∀ {l : List String} {ps : List (String × Int)},
    keysOf l = some ps → ps.map Prod.fst = l := by
  intro l
  induction l with
  | nil =>
    intro ps h
    injection h with h
    subst h
    rfl
  | cons f fs ih =>
    intro ps h
    unfold keysOf at h
    split at h
    · rename_i k ps' hk hks
      injection h with h
      subst h
      simp [ih hks]
    · cases h

/-- Every decorated pair records the actual sort key of its file. -/
theorem keysOf_mem : ∀ {l : List String} {ps : List (String × Int)},
    keysOf l = some ps → ∀ pr ∈ ps, seriesKey? pr.1 = some pr.2 := by
  intro l
  induction l with
  | nil =>
    intro ps h pr hpr
    injection h with h
    subst h
    cases hpr
  | cons f fs ih =>
    intro ps h pr hpr
    unfold keysOf at h
    split at h
    · rename_i k ps' hk hks
      injection h with h
      subst h
      rcases List.mem_cons.mp hpr with h1 | h2
      · subst h1
        exact hk
      · exact ih hks pr h2
    · cases h

/-- When every file's key parses, decorating succeeds. -/
theorem keysOf_isSome_of_all : ∀ {l : List String},
    (∀ f ∈ l, (seriesKey? f).isSome) → ∃ ps, keysOf l = some ps := by
  intro l
  induction l with
  | nil => exact fun _ => ⟨[], rfl⟩
  | cons f fs ih =>
    intro h
    obtain ⟨k, hk⟩ := Option.isSome_iff_exists.mp (h f (List.mem_cons_self f fs))
    obtain ⟨ps, hps⟩ := ih (fun g hg => h g (List.mem_cons_of_mem f hg))
    refine ⟨(f, k) :: ps, ?_⟩
    unfold keysOf
    rw [hk, hps]

/-- One unparseable key fails the whole decoration (the `ValueError`). -/
theorem keysOf_eq_none : ∀ {l : List String} (f : String),
    f ∈ l → seriesKey? f = none → keysOf l = none := by
  intro l
  induction l with
  | nil => intro f hf; cases hf
  | cons g fs ih =>
    intro f hf hkey
    unfold keysOf
    rcases List.mem_cons.mp hf with h1 | h2
    · subst h1
      rw [hkey]
    · cases hk : seriesKey? g with
      | none => rfl
      | some k => rw [ih f h2 hkey]

/-- C3: the table built by `get_nii_info_dataframe` has one row for exactly
the files of the scratch folder whose names end in `.nii.gz`, every row's
numeric series suffix parses, and the rows are in nondecreasing order of
that suffix. -/
theorem get_nii_info_dataframe_rows (files : List String) (rows : List String)
    (h : get_nii_info_dataframe files = .ok rows) :
    rows.Perm (files.filter (fun f => endsWithStr f ".nii.gz")) ∧
    (∀ f ∈ rows, (seriesKey? f).isSome) ∧
    rows.Pairwise (fun a b => (seriesKey? a).getD 0 ≤ (seriesKey? b).getD 0) := by
  unfold get_nii_info_dataframe at h
  simp only [] at h
  split at h
  · cases h
  · split at h
    · cases h
    · rename_i ps hkeys
      injection h with hrows
      subst hrows
      have hperm : (List.insertionSort (fun a b : String × Int => a.2 ≤ b.2) ps).Perm ps :=
        List.perm_insertionSort _ ps
      refine ⟨?_, ?_, ?_⟩
      · rw [← keysOf_map_fst hkeys]
        exact hperm.map Prod.fst
      · intro f hf
        obtain ⟨pr, hpr, hfe⟩ := List.mem_map.mp hf
        subst hfe
        rw [keysOf_mem hkeys pr (hperm.mem_iff.mp hpr)]
        rfl
      · haveI : IsTotal (String × Int) (fun a b => a.2 ≤ b.2) := ⟨fun a b => le_total a.2 b.2⟩
        haveI : IsTrans (String × Int) (fun a b => a.2 ≤ b.2) :=
          ⟨fun _ _ _ hab hbc => le_trans hab hbc⟩
        have hsorted : List.Sorted (fun a b : String × Int => a.2 ≤ b.2)
            (List.insertionSort (fun a b : String × Int => a.2 ≤ b.2) ps) :=
          List.sorted_insertionSort _ ps
        rw [List.pairwise_map]
        refine hsorted.imp_of_mem ?_
        intro a b ha hb hab
        rw [keysOf_mem hkeys a (hperm.mem_iff.mp ha),
          keysOf_mem hkeys b (hperm.mem_iff.mp hb)]
        simpa using hab

/-- Witness for C3 on a concrete folder listing: the non-NIfTI file is
dropped and the two images come out sorted by series number. -/
theorem get_nii_info_dataframe_rows_witness :
    (["a_1.nii.gz", "b_2.nii.gz"] : List String).Perm
        ((["b_2.nii.gz", "a_1.nii.gz", "x.json"] : List String).filter
          (fun f => endsWithStr f ".nii.gz")) ∧
    (∀ f ∈ (["a_1.nii.gz", "b_2.nii.gz"] : List String), (seriesKey? f).isSome) ∧
    (["a_1.nii.gz", "b_2.nii.gz"] : List String).Pairwise
        (fun a b => (seriesKey? a).getD 0 ≤ (seriesKey? b).getD 0) :=
  get_nii_info_dataframe_rows ["b_2.nii.gz", "a_1.nii.gz", "x.json"]
    ["a_1.nii.gz", "b_2.nii.gz"] (by decide)

/-- C9: with no `.nii.gz` file in the scratch folder, the run exits with
status 1 before any selection prompt (the trace holds no selection event),
and any table the selection loop does see is non-empty. -/
theorem no_nii_exits_before_prompt (files : List String)
    (overwriteAnswers : List String) (bids participant session : String)
    (contrasts : List String) (sel : List String) (debug : Bool) :
    (files.filter (fun f => endsWithStr f ".nii.gz") = [] →
        get_nii_info_dataframe files = .exit1 ∧
        runMain true false overwriteAnswers bids participant session contrasts files sel debug =
          ⟨[Event.converted], .exitedNoNii⟩) ∧
    (∀ df, get_nii_info_dataframe files = .ok df → df ≠ []) := by
  constructor
  · intro hempty
    have hdf : get_nii_info_dataframe files = .exit1 := by
      unfold get_nii_info_dataframe
      rw [hempty]
      rfl
    refine ⟨hdf, ?_⟩
    simp [runMain, runBody, hdf]
  · intro df hdf
    unfold get_nii_info_dataframe at hdf
    simp only [] at hdf
    split at hdf
    · cases hdf
    · rename_i hne
      split at hdf
      · cases hdf
      · rename_i ps hkeys
        injection hdf with h
        subst h
        intro hcontra
        have hperm : (List.insertionSort (fun a b : String × Int => a.2 ≤ b.2) ps).Perm ps :=
          List.perm_insertionSort _ ps
        have hmaps : (List.insertionSort (fun a b : String × Int => a.2 ≤ b.2) ps).map
            Prod.fst |>.Perm (files.filter (fun f => endsWithStr f ".nii.gz")) := by
          rw [← keysOf_map_fst hkeys]
          exact hperm.map Prod.fst
        rw [hcontra] at hmaps
        have hnil : files.filter (fun f => endsWithStr f ".nii.gz") = [] := hmaps.nil_eq.symm
        rw [← List.isEmpty_iff] at hnil
        exact hne hnil

/-- Witness for C9: a folder with only a JSON file exits with status 1 and an
empty trace past the conversion; a folder with one image yields a non-empty
table. -/
theorem no_nii_exits_before_prompt_witness :
    (get_nii_info_dataframe ["x.json"] = .exit1 ∧
      runMain true false [] "/b" "sub-01" "ses-01" ["T2w"] ["x.json"] [] false =
        ⟨[Event.converted], .exitedNoNii⟩) ∧
    (["a_1.nii.gz"] : List String) ≠ [] :=
  ⟨(no_nii_exits_before_prompt ["x.json"] [] "/b" "sub-01" "ses-01" ["T2w"] [] false).1
      (by decide),
   (no_nii_exits_before_prompt ["a_1.nii.gz"] [] "/b" "sub-01" "ses-01" ["T2w"] [] false).2
      ["a_1.nii.gz"] (by decide)⟩

/-! ### Lemmas about the numeric-suffix parse (claim C10) -/

/-- A digit is not whitespace. -/
theorem isDigit_not_ws {c : Char} (h : c.isDigit = true) : c.isWhitespace = false := by
  by_contra hw
  simp only [Bool.not_eq_false] at hw
  unfold Char.isWhitespace at hw
  simp only [Bool.or_eq_true, decide_eq_true_eq] at hw
  rcases hw with ((h1 | h1) | h1) | h1 <;> subst h1 <;> exact absurd h (by decide)

/-- `dropWhile` strips nothing from a list none of whose elements satisfy the
predicate. -/
theorem dropWhile_eq_self_of_none {p : Char → Bool} :
    ∀ {cs : List Char}, (∀ c ∈ cs, p c = false) → cs.dropWhile p = cs := by
  intro cs h
  cases cs with
  | nil => rfl
  | cons c cs' =>
    rw [List.dropWhile_cons, h c (List.mem_cons_self c cs')]
    simp

/-- Stripping whitespace from a whitespace-free string is the identity. -/
theorem stripWs_of_no_ws {cs : List Char} (h : ∀ c ∈ cs, c.isWhitespace = false) :
    stripWs cs = cs := by
  unfold stripWs
  rw [dropWhile_eq_self_of_none h]
  rw [dropWhile_eq_self_of_none (fun c hc => h c (List.mem_reverse.mp hc))]
  exact List.reverse_reverse cs

/-- An all-digit tail satisfies the digit-group grammar. -/
theorem digitGroups_of_all_digits :
    ∀ {cs : List Char}, (∀ c ∈ cs, c.isDigit = true) → digitGroups cs = true := by
  intro cs
  induction cs with
  | nil => intro _; rfl
  | cons c rest ih =>
    intro h
    have hc := h c (List.mem_cons_self c rest)
    have hne : ¬c = '_' := by
      intro he
      subst he
      exact absurd hc (by decide)
    unfold digitGroups
    rw [if_neg hne, hc, ih (fun d hd => h d (List.mem_cons_of_mem c hd))]
    rfl

/-- Python's `int()` accepts every decimal numeral. -/
theorem pyInt?_isSome_of_digits {s : String} (hd : isDecimalNumeral s = true) :
    (pyInt? s).isSome := by
  have hne : s.data ≠ [] := by
    intro he
    unfold isDecimalNumeral at hd
    rw [he] at hd
    exact absurd hd (by decide)
  have hall : ∀ c ∈ s.data, c.isDigit = true := by
    intro c hc
    unfold isDecimalNumeral at hd
    simp only [Bool.and_eq_true, List.all_eq_true] at hd
    exact hd.2 c hc
  have hstrip : stripWs s.data = s.data :=
    stripWs_of_no_ws (fun c hc => isDigit_not_ws (hall c hc))
  have hbody : digitsBody s.data = true := by
    obtain ⟨c, rest, hcr⟩ := List.exists_cons_of_ne_nil hne
    rw [hcr]
    show (c.isDigit && digitGroups rest) = true
    rw [hall c (by rw [hcr]; exact List.mem_cons_self c rest),
      digitGroups_of_all_digits (fun d hd' => hall d (by rw [hcr]; exact List.mem_cons_of_mem c hd'))]
    rfl
  unfold pyInt?
  split
  · rename_i rest heq
    rw [hstrip] at heq
    have hmem : '-' ∈ s.data := by
      rw [heq]
      exact List.mem_cons_self _ _
    exact absurd (hall _ hmem) (by decide)
  · rename_i rest heq
    rw [hstrip] at heq
    have hmem : '+' ∈ s.data := by
      rw [heq]
      exact List.mem_cons_self _ _
    exact absurd (hall _ hmem) (by decide)
  · rw [hstrip, hbody]
    rfl

/-- C10 counterexample: the token of `a_+3.nii.gz` is `+3`, which is not a
decimal numeral, yet Python's `int` accepts it, so the enumeration builds a
table instead of failing as the claim requires. -/
theorem series_suffix_shape_counterexample :
    isDecimalNumeral (seriesToken "a_+3.nii.gz") = false ∧
    get_nii_info_dataframe ["a_+3.nii.gz"] = .ok ["a_+3.nii.gz"] := by decide

/-- C10 as amended: the sort succeeds exactly on the parseable suffixes:
every decimal-numeral token parses, all tokens parsing makes the enumeration
produce a table, and one unparseable token makes it raise. -/
theorem series_suffix_parse_totality (files : List String) :
    ((∀ s : String, isDecimalNumeral s = true → (pyInt? s).isSome) ∧
     ((files.filter (fun f => endsWithStr f ".nii.gz") ≠ [] ∧
        ∀ f ∈ files.filter (fun f => endsWithStr f ".nii.gz"), (seriesKey? f).isSome) →
       ∃ rows, get_nii_info_dataframe files = .ok rows)) ∧
    ((∃ f ∈ files.filter (fun f => endsWithStr f ".nii.gz"), seriesKey? f = none) →
      get_nii_info_dataframe files = .valueError) := by
  refine ⟨⟨fun s hs => pyInt?_isSome_of_digits hs, ?_⟩, ?_⟩
  · rintro ⟨hne, hall⟩
    obtain ⟨ps, hps⟩ := keysOf_isSome_of_all hall
    refine ⟨(List.insertionSort (fun a b : String × Int => a.2 ≤ b.2) ps).map Prod.fst, ?_⟩
    unfold get_nii_info_dataframe
    simp only []
    rw [if_neg (by simpa [List.isEmpty_iff] using hne), hps]
  · rintro ⟨f, hf, hkey⟩
    have hnone := keysOf_eq_none f hf hkey
    have hne : files.filter (fun g => endsWithStr g ".nii.gz") ≠ [] :=
      List.ne_nil_of_mem hf
    unfold get_nii_info_dataframe
    simp only []
    rw [if_neg (by simpa [List.isEmpty_iff] using hne), hnone]

/-- Witness for the amended C10: concrete numeral, success, and failure
instances. -/
theorem series_suffix_parse_totality_witness :
    ((isDecimalNumeral "12" = true → (pyInt? "12").isSome) ∧
      ((["a_1.nii.gz"].filter (fun f => endsWithStr f ".nii.gz") ≠ [] ∧
        ∀ f ∈ (["a_1.nii.gz"] : List String).filter (fun f => endsWithStr f ".nii.gz"),
          (seriesKey? f).isSome) →
        ∃ rows, get_nii_info_dataframe ["a_1.nii.gz"] = .ok rows)) ∧
    ((∃ f ∈ (["foo.nii.gz"] : List String).filter (fun f => endsWithStr f ".nii.gz"),
        seriesKey? f = none) →
      get_nii_info_dataframe ["foo.nii.gz"] = .valueError) :=
  ⟨⟨(series_suffix_parse_totality ["a_1.nii.gz"]).1.1 "12",
    (series_suffix_parse_totality ["a_1.nii.gz"]).1.2⟩,
   (series_suffix_parse_totality ["foo.nii.gz"]).2⟩

/-! ### Lemmas for the copy step (claim C4) -/

/-- When the pattern occurs in `x ++ pat` only as the final suffix,
replace-all rewrites exactly that suffix. -/
theorem replaceAll_append_pat (p : Char) (ps repl : List Char) :
    ∀ (x : List Char),
      (∀ t, t <:+ (x ++ (p :: ps)) → (p :: ps) <+: t → t.length = (p :: ps).length) →
      replaceAll p ps repl (x ++ (p :: ps)) = x ++ repl := by
  intro x
  induction x with
  | nil =>
    intro _
    rw [List.nil_append, replaceAll_cons,
      if_pos (List.isPrefixOf_iff_prefix.mpr (List.prefix_refl _)), List.drop_length,
      replaceAll_nil, List.append_nil, List.nil_append]
  | cons c x' ih =>
    intro H
    rw [List.cons_append, replaceAll_cons]
    have hnp : ¬(p :: ps).isPrefixOf (c :: (x' ++ (p :: ps))) = true := by
      intro hpre
      have hpre' := List.isPrefixOf_iff_prefix.mp hpre
      have hlen := H (c :: (x' ++ (p :: ps))) (List.suffix_refl _) hpre'
      simp only [List.length_cons, List.length_append] at hlen
      omega
    rw [if_neg hnp, ih (fun t ht hp => H t (ht.trans (List.suffix_cons c _)) hp),
      List.cons_append]

/-- Python's replace-all coincides with suffix replacement when the pattern
occurs only as the suffix. -/
theorem pyReplace_of_onlyAsSuffix {s pat : String} (repl : String) (hpat : pat.data ≠ [])
    (h : occursOnlyAsSuffix pat s) :
    pyReplace s pat repl = ⟨s.data.take (s.data.length - pat.data.length) ++ repl.data⟩ := by
  obtain ⟨hsuf, honly⟩ := h
  obtain ⟨x, hx⟩ := hsuf
  obtain ⟨p, ps, hpps⟩ := List.exists_cons_of_ne_nil hpat
  rw [hpps] at hx
  unfold pyReplace
  rw [hpps]
  show (⟨replaceAll p ps repl.data s.data⟩ : String) =
    ⟨s.data.take (s.data.length - (p :: ps).length) ++ repl.data⟩
  rw [← hx]
  have honly2 : ∀ t, t <:+ (x ++ (p :: ps)) → (p :: ps) <+: t → t.length = (p :: ps).length := by
    intro t ht hp
    rw [← hpps]
    refine honly t ?_ ?_
    · rw [← hx]
      exact (List.mem_tails _ _).mpr ht
    · rw [hpps]
      exact hp
  have hlen : (x ++ (p :: ps)).length - (p :: ps).length = x.length := by
    simp [List.length_append]
  rw [hlen, List.take_left, replaceAll_append_pat p ps repl.data x honly2]

/-- Under the unique-suffix condition, each sidecar name produced by the
source's `replace` is the suffix-derived one. -/
theorem pyReplace_suffix_swap (ext : String) {s : String}
    (h : occursOnlyAsSuffix ".nii.gz" s) :
    pyReplace s ".nii.gz" ext = stripNiiGz s ++ ext := by
  rw [pyReplace_of_onlyAsSuffix ext (by decide) h]
  rfl

/-- C4 counterexample: for a source image whose name contains `.nii.gz` also
in the middle, the source's `replace` does not derive the `.json` sidecar by
replacing the `.nii.gz` suffix: it rewrites both occurrences. -/
theorem copy_sidecar_not_suffix_derived :
    ((copy_files_to_bids_folder "T2w" "/t/x.nii.gzy_1.nii.gz" "/o" "sub-01" "ses-01").1.map
        Prod.fst) = ["/t/x.nii.gzy_1.nii.gz", "/t/x.jsony_1.json"] ∧
    "/t/x.jsony_1.json" ≠ stripNiiGz "/t/x.nii.gzy_1.nii.gz" ++ ".json" := by decide

/-- C4 as amended: when `.nii.gz` occurs only as a suffix of the source path
and of the destination path (the code replaces every occurrence, which then
coincides with suffix replacement), the copy step uses subfolder `dwi` for
the `dwi` contrast and `anat` otherwise, copies the image under
`<participant>_<session>_<contrast>.nii.gz` with its suffix-derived `.json`
sidecar, adds the `.bval`/`.bvec` pair exactly for `dwi`, and returns the
destination image path. -/
theorem copy_files_layout (contrast fname output_folder participant_id session_id : String)
    (hsrc : occursOnlyAsSuffix ".nii.gz" fname)
    (hdst : occursOnlyAsSuffix ".nii.gz"
      (pathJoin (pathJoin output_folder (if contrast = "dwi" then "dwi" else "anat"))
        (participant_id ++ "_" ++ session_id ++ "_" ++ contrast ++ ".nii.gz"))) :
    copy_files_to_bids_folder contrast fname output_folder participant_id session_id =
      (let dst := pathJoin (pathJoin output_folder (if contrast = "dwi" then "dwi" else "anat"))
        (participant_id ++ "_" ++ session_id ++ "_" ++ contrast ++ ".nii.gz")
       ((if contrast = "dwi" then
          [(fname, dst),
           (stripNiiGz fname ++ ".json", stripNiiGz dst ++ ".json"),
           (stripNiiGz fname ++ ".bval", stripNiiGz dst ++ ".bval"),
           (stripNiiGz fname ++ ".bvec", stripNiiGz dst ++ ".bvec")]
        else
          [(fname, dst), (stripNiiGz fname ++ ".json", stripNiiGz dst ++ ".json")]), dst)) := by
  by_cases hc : contrast = "dwi"
  · subst hc
    simp only [if_pos rfl] at hdst ⊢
    unfold copy_files_to_bids_folder
    simp only [if_pos rfl]
    rw [pyReplace_suffix_swap ".json" hsrc, pyReplace_suffix_swap ".bval" hsrc,
      pyReplace_suffix_swap ".bvec" hsrc, pyReplace_suffix_swap ".json" hdst,
      pyReplace_suffix_swap ".bval" hdst, pyReplace_suffix_swap ".bvec" hdst]
    simp
  · simp only [if_neg hc] at hdst ⊢
    unfold copy_files_to_bids_folder
    simp only [if_neg hc]
    rw [pyReplace_suffix_swap ".json" hsrc, pyReplace_suffix_swap ".json" hdst]

/-- Witness for the amended C4 on a concrete `dwi` copy. -/
theorem copy_files_layout_witness :
    copy_files_to_bids_folder "dwi" "/t/d_5.nii.gz" "/o" "sub-01" "ses-01" =
      ([("/t/d_5.nii.gz", "/o/dwi/sub-01_ses-01_dwi.nii.gz"),
        ("/t/d_5.json", "/o/dwi/sub-01_ses-01_dwi.json"),
        ("/t/d_5.bval", "/o/dwi/sub-01_ses-01_dwi.bval"),
        ("/t/d_5.bvec", "/o/dwi/sub-01_ses-01_dwi.bvec")],
       "/o/dwi/sub-01_ses-01_dwi.nii.gz") :=
  copy_files_layout "dwi" "/t/d_5.nii.gz" "/o" "sub-01" "ses-01" (by decide) (by decide)

/-! ### Structure of `main` runs (claims C6, C7, C8) -/

/-- `selEvents` preserves length. -/
theorem selEvents_length (pairs : List (String × String)) :
    (selEvents pairs).length = pairs.length := by
  simp [selEvents]

/-- Splitting a trace: if nothing in the left part is a `Q`-event and nothing
in the right part is a `P`-event, every `P`-event precedes every `Q`-event. -/
theorem eventsBefore_append {A B : List Event} {P Q : Event → Prop}
    (hQ : ∀ e ∈ A, ¬Q e) (hP : ∀ e ∈ B, ¬P e) : eventsBefore (A ++ B) P Q := by
  intro i j hi hj hPi hQj
  have hiA : i < A.length := by
    by_contra hge
    push_neg at hge
    rw [List.get_eq_getElem, List.getElem_append_right hge] at hPi
    exact hP _ (List.getElem_mem _) hPi
  have hjB : A.length ≤ j := by
    by_contra hlt
    push_neg at hlt
    rw [List.get_eq_getElem, List.getElem_append_left hlt] at hQj
    exact hQ _ (List.getElem_mem _) hQj
  omega

/-- Every event emitted by the post-conversion body is a selection, a copy,
the scratch removal, or the registry write. -/
theorem runBody_event_shapes {fs : FileSystem}
    {temp_folder output_folder participant_id session_id : String}
    {contrasts files sel : List String} {debug : Bool} :
    ∀ e ∈ (runBody fs temp_folder output_folder participant_id session_id contrasts files sel
        debug).1,
      (∃ c p, e = Event.selected c p) ∨ (∃ c d, e = Event.copied c d) ∨
        e = Event.removedTemp ∨ e = Event.wroteTsv := by
  intro e he
  unfold runBody at he
  split at he
  · cases he
  · cases he
  · split at he
    · cases he
    · simp only [List.mem_append] at he
      rcases he with ((h1 | h2) | h3) | h4
      · left
        simp only [selEvents, List.mem_map] at h1
        obtain ⟨cp, _, hcp⟩ := h1
        exact ⟨cp.1, cp.2, hcp.symm⟩
      · right; left
        simp only [cpEvents, List.mem_map] at h2
        obtain ⟨cp, _, hcp⟩ := h2
        exact ⟨cp.1, _, hcp.symm⟩
      · right; right; left
        by_cases hd : debug
        · simp [hd] at h3
        · simp only [hd, Bool.false_eq_true, if_false, List.mem_singleton] at h3
          exact h3
      · right; right; right
        simpa using h4

/-- A finishing body run decomposes into the table, the selection results,
and the fixed event layout. -/
theorem runBody_finished {fs : FileSystem}
    {temp_folder output_folder participant_id session_id : String}
    {contrasts files sel : List String} {debug : Bool} {evs : List Event}
    (h : runBody fs temp_folder output_folder participant_id session_id contrasts files sel
      debug = (evs, .finished)) :
    ∃ pairs rem df, get_nii_info_dataframe files = .ok df ∧
      selectAll fs df temp_folder contrasts sel = some (pairs, rem) ∧
      evs = selEvents pairs ++ cpEvents output_folder participant_id session_id pairs ++
        (if debug then [] else [Event.removedTemp]) ++ [Event.wroteTsv] := by
  unfold runBody at h
  split at h
  · simp at h
  · simp at h
  · rename_i df hdf
    split at h
    · simp at h
    · rename_i pairs rem hsel
      simp only [Prod.mk.injEq] at h
      exact ⟨pairs, rem, df, hdf, hsel, h.1.symm⟩

/-- A finishing `main` run decomposes into a conversion prefix (with the
overwrite interaction when the destination existed) followed by the body
trace. -/
theorem runMain_finished {dicomExists destExists : Bool} {overwriteAnswers : List String}
    {bids_folder participant_id session_id : String} {contrasts files sel : List String}
    {debug : Bool} {evs : List Event}
    (h : runMain dicomExists destExists overwriteAnswers bids_folder participant_id session_id
      contrasts files sel debug = ⟨evs, .finished⟩) :
    ∃ pre pairs rem df,
      (pre = [Event.converted] ∨
        pre = [Event.promptedOverwrite, Event.removedExisting, Event.converted]) ∧
      get_nii_info_dataframe files = .ok df ∧
      selectAll (mainFs bids_folder participant_id session_id files) df
        (mainTempFolder bids_folder participant_id session_id) contrasts sel =
        some (pairs, rem) ∧
      evs = pre ++ (selEvents pairs ++
        cpEvents (mainOutputFolder bids_folder participant_id session_id)
          participant_id session_id pairs ++
        (if debug then [] else [Event.removedTemp]) ++ [Event.wroteTsv]) := by
  unfold runMain at h
  split at h
  · simp at h
  · simp only [] at h
    split at h
    · split at h
      · simp at h
      · simp at h
      · simp only [RunResult.mk.injEq] at h
        obtain ⟨hevs, houtcome⟩ := h
        have hb : runBody (mainFs bids_folder participant_id session_id files)
            (mainTempFolder bids_folder participant_id session_id)
            (mainOutputFolder bids_folder participant_id session_id)
            participant_id session_id contrasts files sel debug =
            ((runBody (mainFs bids_folder participant_id session_id files)
              (mainTempFolder bids_folder participant_id session_id)
              (mainOutputFolder bids_folder participant_id session_id)
              participant_id session_id contrasts files sel debug).1, .finished) := by
          rw [← houtcome]
        obtain ⟨pairs, rem, df, hdf, hsel, hbody⟩ := runBody_finished hb
        refine ⟨[Event.promptedOverwrite, Event.removedExisting, Event.converted], pairs, rem,
          df, Or.inr rfl, hdf, hsel, ?_⟩
        rw [← hevs, hbody]
        simp
    · simp only [RunResult.mk.injEq] at h
      obtain ⟨hevs, houtcome⟩ := h
      have hb : runBody (mainFs bids_folder participant_id session_id files)
          (mainTempFolder bids_folder participant_id session_id)
          (mainOutputFolder bids_folder participant_id session_id)
          participant_id session_id contrasts files sel debug =
          ((runBody (mainFs bids_folder participant_id session_id files)
            (mainTempFolder bids_folder participant_id session_id)
            (mainOutputFolder bids_folder participant_id session_id)
            participant_id session_id contrasts files sel debug).1, .finished) := by
        rw [← houtcome]
      obtain ⟨pairs, rem, df, hdf, hsel, hbody⟩ := runBody_finished hb
      refine ⟨[Event.converted], pairs, rem, df, Or.inl rfl, hdf, hsel, ?_⟩
      rw [← hevs, hbody]
      simp

/-- C6 counterexample: with the `-debug` flag the run finishes without ever
removing the scratch folder. -/
theorem scratch_kept_in_debug_mode :
    (runMain true false [] "/b" "sub-01" "ses-01" ["T2w"] ["img_1.nii.gz", "img_1.json"] ["0"]
        true).outcome = Outcome.finished ∧
    Event.removedTemp ∉ (runMain true false [] "/b" "sub-01" "ses-01" ["T2w"]
        ["img_1.nii.gz", "img_1.json"] ["0"] true).events := by decide

/-- C6 as amended: unless the `-debug` flag was passed, a finishing run
removes the scratch folder, and only after every copy into the destination
layout. -/
theorem scratch_removed_after_copies {dicomExists destExists : Bool}
    {overwriteAnswers : List String} {bids_folder participant_id session_id : String}
    {contrasts files sel : List String} {evs : List Event}
    (h : runMain dicomExists destExists overwriteAnswers bids_folder participant_id session_id
      contrasts files sel false = ⟨evs, .finished⟩) :
    Event.removedTemp ∈ evs ∧
    eventsBefore evs (fun e => ∃ c d, e = Event.copied c d)
      (fun e => e = Event.removedTemp) := by
  obtain ⟨pre, pairs, rem, df, hpre, _, _, hevs⟩ := runMain_finished h
  have hpreShape : ∀ e ∈ pre,
      e = Event.promptedOverwrite ∨ e = Event.removedExisting ∨ e = Event.converted := by
    rcases hpre with rfl | rfl <;> intro e he <;> simp at he <;> tauto
  subst hevs
  constructor
  · simp
  · have hsplit : pre ++ (selEvents pairs ++
        cpEvents (mainOutputFolder bids_folder participant_id session_id)
          participant_id session_id pairs ++
        (if false then [] else [Event.removedTemp]) ++ [Event.wroteTsv]) =
      (pre ++ selEvents pairs ++
        cpEvents (mainOutputFolder bids_folder participant_id session_id)
          participant_id session_id pairs) ++
      ([Event.removedTemp] ++ [Event.wroteTsv]) := by
      simp [List.append_assoc]
    rw [hsplit]
    apply eventsBefore_append
    · intro e he
      simp only [List.mem_append] at he
      rcases he with (he1 | he2) | he3
      · rcases hpreShape e he1 with rfl | rfl | rfl <;> simp
      · simp only [selEvents, List.mem_map] at he2
        obtain ⟨cp, _, rfl⟩ := he2
        simp
      · simp only [cpEvents, List.mem_map] at he3
        obtain ⟨cp, _, rfl⟩ := he3
        simp
    · intro e he
      simp only [List.mem_append, List.mem_singleton] at he
      rcases he with rfl | rfl <;> simp

/-- Witness for the amended C6 at a concrete finishing run without `-debug`. -/
theorem scratch_removed_after_copies_witness :
    Event.removedTemp ∈
      ([Event.converted,
        Event.selected "T2w" "/b/sub-01/ses-01/temp_dcm2niix/img_1.nii.gz",
        Event.copied "T2w" "/b/sub-01/ses-01/anat/sub-01_ses-01_T2w.nii.gz",
        Event.removedTemp, Event.wroteTsv] : List Event) ∧
    eventsBefore
      ([Event.converted,
        Event.selected "T2w" "/b/sub-01/ses-01/temp_dcm2niix/img_1.nii.gz",
        Event.copied "T2w" "/b/sub-01/ses-01/anat/sub-01_ses-01_T2w.nii.gz",
        Event.removedTemp, Event.wroteTsv] : List Event)
      (fun e => ∃ c d, e = Event.copied c d) (fun e => e = Event.removedTemp) :=
  @scratch_removed_after_copies true false [] "/b" "sub-01" "ses-01" ["T2w"]
    ["img_1.nii.gz", "img_1.json"] ["0"]
    [Event.converted,
      Event.selected "T2w" "/b/sub-01/ses-01/temp_dcm2niix/img_1.nii.gz",
      Event.copied "T2w" "/b/sub-01/ses-01/anat/sub-01_ses-01_T2w.nii.gz",
      Event.removedTemp, Event.wroteTsv] (by decide)

/-- C7: in every finishing run the registry row is written after every copy,
every selection precedes every copy, and every copy of a contrast is
preceded by a selection of that same contrast. -/
theorem pipeline_order {dicomExists destExists : Bool} {overwriteAnswers : List String}
    {bids_folder participant_id session_id : String} {contrasts files sel : List String}
    {debug : Bool} {evs : List Event}
    (h : runMain dicomExists destExists overwriteAnswers bids_folder participant_id session_id
      contrasts files sel debug = ⟨evs, .finished⟩) :
    Event.wroteTsv ∈ evs ∧
    eventsBefore evs (fun e => ∃ c d, e = Event.copied c d) (fun e => e = Event.wroteTsv) ∧
    eventsBefore evs (fun e => ∃ c p, e = Event.selected c p)
      (fun e => ∃ c d, e = Event.copied c d) ∧
    (∀ j, ∀ hj : j < evs.length, ∀ c d, evs.get ⟨j, hj⟩ = Event.copied c d →
      ∃ i, ∃ hi : i < evs.length, i < j ∧ ∃ p, evs.get ⟨i, hi⟩ = Event.selected c p) := by
  obtain ⟨pre, pairs, rem, df, hpre, _, _, hevs⟩ := runMain_finished h
  have hpreShape : ∀ e ∈ pre,
      e = Event.promptedOverwrite ∨ e = Event.removedExisting ∨ e = Event.converted := by
    rcases hpre with rfl | rfl <;> intro e he <;> simp at he <;> tauto
  have hXShape : ∀ e ∈ (if debug then ([] : List Event) else [Event.removedTemp]),
      e = Event.removedTemp := by
    by_cases hd : debug
    · simp [hd]
    · simp [hd]
  subst hevs
  have hselBeforeCp : eventsBefore (pre ++ (selEvents pairs ++
      cpEvents (mainOutputFolder bids_folder participant_id session_id)
        participant_id session_id pairs ++
      (if debug then [] else [Event.removedTemp]) ++ [Event.wroteTsv]))
      (fun e => ∃ c p, e = Event.selected c p) (fun e => ∃ c d, e = Event.copied c d) := by
    have hsplit : pre ++ (selEvents pairs ++
        cpEvents (mainOutputFolder bids_folder participant_id session_id)
          participant_id session_id pairs ++
        (if debug then [] else [Event.removedTemp]) ++ [Event.wroteTsv]) =
      (pre ++ selEvents pairs) ++
      (cpEvents (mainOutputFolder bids_folder participant_id session_id)
          participant_id session_id pairs ++
        ((if debug then [] else [Event.removedTemp]) ++ [Event.wroteTsv])) := by
      simp [List.append_assoc]
    rw [hsplit]
    apply eventsBefore_append
    · intro e he
      simp only [List.mem_append] at he
      rcases he with he1 | he2
      · rcases hpreShape e he1 with rfl | rfl | rfl <;> simp
      · simp only [selEvents, List.mem_map] at he2
        obtain ⟨cp, _, rfl⟩ := he2
        simp
    · intro e he
      simp only [List.mem_append] at he
      rcases he with he1 | he2 | he3
      · simp only [cpEvents, List.mem_map] at he1
        obtain ⟨cp, _, rfl⟩ := he1
        simp
      · have := hXShape e he2
        subst this
        simp
      · simp only [List.mem_singleton] at he3
        subst he3
        simp
  refine ⟨?_, ?_, hselBeforeCp, ?_⟩
  · simp
  · have hsplit : pre ++ (selEvents pairs ++
        cpEvents (mainOutputFolder bids_folder participant_id session_id)
          participant_id session_id pairs ++
        (if debug then [] else [Event.removedTemp]) ++ [Event.wroteTsv]) =
      (pre ++ (selEvents pairs ++
        cpEvents (mainOutputFolder bids_folder participant_id session_id)
          participant_id session_id pairs ++
        (if debug then [] else [Event.removedTemp]))) ++ [Event.wroteTsv] := by
      simp [List.append_assoc]
    rw [hsplit]
    apply eventsBefore_append
    · intro e he
      simp only [List.mem_append, or_assoc] at he
      rcases he with he1 | he2 | he3 | he4
      · rcases hpreShape e he1 with rfl | rfl | rfl <;> simp
      · simp only [selEvents, List.mem_map] at he2
        obtain ⟨cp, _, rfl⟩ := he2
        simp
      · simp only [cpEvents, List.mem_map] at he3
        obtain ⟨cp, _, rfl⟩ := he3
        simp
      · have := hXShape e he4
        subst this
        simp
    · intro e he
      simp only [List.mem_singleton] at he
      subst he
      simp
  · intro j hj c d hc
    have hmem : Event.copied c d ∈ pre ++ (selEvents pairs ++
        cpEvents (mainOutputFolder bids_folder participant_id session_id)
          participant_id session_id pairs ++
        (if debug then [] else [Event.removedTemp]) ++ [Event.wroteTsv]) := by
      rw [← hc]
      exact List.get_mem _ _ _
    have hq : ∃ q, (c, q) ∈ pairs := by
      simp only [List.mem_append, or_assoc] at hmem
      rcases hmem with he1 | he2 | he3 | he4 | he5
      · rcases hpreShape _ he1 with h1 | h1 | h1 <;> cases h1
      · simp only [selEvents, List.mem_map] at he2
        obtain ⟨cp, _, hcp⟩ := he2
        cases hcp
      · simp only [cpEvents, List.mem_map] at he3
        obtain ⟨cp, hcpmem, hcp⟩ := he3
        injection hcp with hc1 hc2
        exact ⟨cp.2, by rw [← hc1]; exact hcpmem⟩
      · have := hXShape _ he4
        cases this
      · simp only [List.mem_singleton] at he5
        cases he5
    obtain ⟨q, hqmem⟩ := hq
    have hselmem : Event.selected c q ∈ pre ++ (selEvents pairs ++
        cpEvents (mainOutputFolder bids_folder participant_id session_id)
          participant_id session_id pairs ++
        (if debug then [] else [Event.removedTemp]) ++ [Event.wroteTsv]) := by
      have h1 : Event.selected c q ∈ selEvents pairs := by
        simp only [selEvents, List.mem_map]
        exact ⟨(c, q), hqmem, rfl⟩
      simp only [List.mem_append]
      tauto
    obtain ⟨⟨i, hi⟩, hieq⟩ := List.mem_iff_get.mp hselmem
    refine ⟨i, hi, ?_, q, hieq⟩
    exact hselBeforeCp i j hi hj (by rw [hieq]; exact ⟨c, q, rfl⟩) (by rw [hc]; exact ⟨c, d, rfl⟩)

/-- Witness for C7 at a concrete finishing run that overwrote an existing
destination. -/
theorem pipeline_order_witness :
    Event.wroteTsv ∈
      ([Event.promptedOverwrite, Event.removedExisting, Event.converted,
        Event.selected "T2w" "/b/sub-01/ses-01/temp_dcm2niix/img_1.nii.gz",
        Event.copied "T2w" "/b/sub-01/ses-01/anat/sub-01_ses-01_T2w.nii.gz",
        Event.removedTemp, Event.wroteTsv] : List Event) ∧
    eventsBefore
      ([Event.promptedOverwrite, Event.removedExisting, Event.converted,
        Event.selected "T2w" "/b/sub-01/ses-01/temp_dcm2niix/img_1.nii.gz",
        Event.copied "T2w" "/b/sub-01/ses-01/anat/sub-01_ses-01_T2w.nii.gz",
        Event.removedTemp, Event.wroteTsv] : List Event)
      (fun e => ∃ c d, e = Event.copied c d) (fun e => e = Event.wroteTsv) ∧
    eventsBefore
      ([Event.promptedOverwrite, Event.removedExisting, Event.converted,
        Event.selected "T2w" "/b/sub-01/ses-01/temp_dcm2niix/img_1.nii.gz",
        Event.copied "T2w" "/b/sub-01/ses-01/anat/sub-01_ses-01_T2w.nii.gz",
        Event.removedTemp, Event.wroteTsv] : List Event)
      (fun e => ∃ c p, e = Event.selected c p) (fun e => ∃ c d, e = Event.copied c d) ∧
    (∀ j, ∀ hj : j < ([Event.promptedOverwrite, Event.removedExisting, Event.converted,
        Event.selected "T2w" "/b/sub-01/ses-01/temp_dcm2niix/img_1.nii.gz",
        Event.copied "T2w" "/b/sub-01/ses-01/anat/sub-01_ses-01_T2w.nii.gz",
        Event.removedTemp, Event.wroteTsv] : List Event).length, ∀ c d,
      ([Event.promptedOverwrite, Event.removedExisting, Event.converted,
        Event.selected "T2w" "/b/sub-01/ses-01/temp_dcm2niix/img_1.nii.gz",
        Event.copied "T2w" "/b/sub-01/ses-01/anat/sub-01_ses-01_T2w.nii.gz",
        Event.removedTemp, Event.wroteTsv] : List Event).get ⟨j, hj⟩ = Event.copied c d →
      ∃ i, ∃ hi : i < ([Event.promptedOverwrite, Event.removedExisting, Event.converted,
        Event.selected "T2w" "/b/sub-01/ses-01/temp_dcm2niix/img_1.nii.gz",
        Event.copied "T2w" "/b/sub-01/ses-01/anat/sub-01_ses-01_T2w.nii.gz",
        Event.removedTemp, Event.wroteTsv] : List Event).length, i < j ∧ ∃ p,
        ([Event.promptedOverwrite, Event.removedExisting, Event.converted,
          Event.selected "T2w" "/b/sub-01/ses-01/temp_dcm2niix/img_1.nii.gz",
          Event.copied "T2w" "/b/sub-01/ses-01/anat/sub-01_ses-01_T2w.nii.gz",
          Event.removedTemp, Event.wroteTsv] : List Event).get ⟨i, hi⟩ =
          Event.selected c p) :=
  @pipeline_order true true ["yes"] "/b" "sub-01" "ses-01" ["T2w"]
    ["img_1.nii.gz", "img_1.json"] ["0"] false
    [Event.promptedOverwrite, Event.removedExisting, Event.converted,
      Event.selected "T2w" "/b/sub-01/ses-01/temp_dcm2niix/img_1.nii.gz",
      Event.copied "T2w" "/b/sub-01/ses-01/anat/sub-01_ses-01_T2w.nii.gz",
      Event.removedTemp, Event.wroteTsv] (by decide)

/-- C8: when the destination folder already exists, the overwrite prompt
re-asks on any answer other than (case-insensitive) yes/y/no/n; on a `no`
answer `main` returns at once, with no conversion, no copy, and no registry
write; on a `yes` answer the existing folder is removed before the
conversion runs. -/
theorem overwrite_prompt_behaviour (overwriteAnswers : List String)
    (bids_folder participant_id session_id : String) (contrasts files sel : List String)
    (debug : Bool) :
    (∀ a rest, lowerStr a ∉ (["y", "yes", "n", "no"] : List String) →
        overwriteLoop (a :: rest) = overwriteLoop rest) ∧
    (overwriteLoop overwriteAnswers = some false →
        runMain true true overwriteAnswers bids_folder participant_id session_id contrasts
          files sel debug = ⟨[Event.promptedOverwrite], .skipped⟩ ∧
        Event.converted ∉ (runMain true true overwriteAnswers bids_folder participant_id
          session_id contrasts files sel debug).events ∧
        (∀ c d, Event.copied c d ∉ (runMain true true overwriteAnswers bids_folder
          participant_id session_id contrasts files sel debug).events) ∧
        Event.wroteTsv ∉ (runMain true true overwriteAnswers bids_folder participant_id
          session_id contrasts files sel debug).events) ∧
    (overwriteLoop overwriteAnswers = some true →
        ∀ evs oc, runMain true true overwriteAnswers bids_folder participant_id session_id
            contrasts files sel debug = ⟨evs, oc⟩ →
          Event.removedExisting ∈ evs ∧ Event.converted ∈ evs ∧
          eventsBefore evs (fun e => e = Event.removedExisting)
            (fun e => e = Event.converted)) := by
  refine ⟨?_, ?_, ?_⟩
  · intro a rest hne
    simp only [List.mem_cons, List.not_mem_nil, or_false, not_or] at hne
    obtain ⟨h1, h2, h3, h4⟩ := hne
    show (if lowerStr a = "y" ∨ lowerStr a = "yes" then some true
      else if lowerStr a = "n" ∨ lowerStr a = "no" then some false
      else overwriteLoop rest) = overwriteLoop rest
    rw [if_neg (by simp [h1, h2]), if_neg (by simp [h3, h4])]
  · intro hloop
    have hrun : runMain true true overwriteAnswers bids_folder participant_id session_id
        contrasts files sel debug = ⟨[Event.promptedOverwrite], .skipped⟩ := by
      unfold runMain
      simp only []
      rw [if_neg (by simp)]
      rw [if_pos trivial, hloop]
    refine ⟨hrun, ?_, ?_, ?_⟩
    · rw [hrun]; simp
    · intro c d; rw [hrun]; simp
    · rw [hrun]; simp
  · intro hloop evs oc h
    unfold runMain at h
    simp only [] at h
    rw [if_neg (by simp), if_pos trivial, hloop] at h
    simp only [RunResult.mk.injEq] at h
    obtain ⟨hevs, _⟩ := h
    subst hevs
    refine ⟨by simp, by simp, ?_⟩
    have hshape : Event.promptedOverwrite :: Event.removedExisting :: Event.converted ::
        (runBody (mainFs bids_folder participant_id session_id files)
          (mainTempFolder bids_folder participant_id session_id)
          (mainOutputFolder bids_folder participant_id session_id)
          participant_id session_id contrasts files sel debug).1 =
      ([Event.promptedOverwrite, Event.removedExisting] : List Event) ++
        (Event.converted ::
          (runBody (mainFs bids_folder participant_id session_id files)
            (mainTempFolder bids_folder participant_id session_id)
            (mainOutputFolder bids_folder participant_id session_id)
            participant_id session_id contrasts files sel debug).1) := rfl
    rw [hshape]
    apply eventsBefore_append
    · intro e he
      simp only [List.mem_cons, List.not_mem_nil, or_false] at he
      rcases he with rfl | rfl <;> simp
    · intro e he
      simp only [List.mem_cons] at he
      rcases he with rfl | he2
      · simp
      · rcases runBody_event_shapes e he2 with ⟨c, p, rfl⟩ | ⟨c, d, rfl⟩ | rfl | rfl <;> simp

/-- Witness for C8: a stray answer re-prompts; `no` skips the run; `yes`
removes the existing folder before converting. -/
theorem overwrite_prompt_behaviour_witness :
    (overwriteLoop ["maybe", "no"] = overwriteLoop ["no"]) ∧
    (runMain true true ["no"] "/b" "sub-01" "ses-01" ["T2w"] ["img_1.nii.gz", "img_1.json"]
      ["0"] false = ⟨[Event.promptedOverwrite], .skipped⟩) ∧
    (Event.removedExisting ∈
      ([Event.promptedOverwrite, Event.removedExisting, Event.converted,
        Event.selected "T2w" "/b/sub-01/ses-01/temp_dcm2niix/img_1.nii.gz",
        Event.copied "T2w" "/b/sub-01/ses-01/anat/sub-01_ses-01_T2w.nii.gz",
        Event.removedTemp, Event.wroteTsv] : List Event) ∧
     Event.converted ∈
      ([Event.promptedOverwrite, Event.removedExisting, Event.converted,
        Event.selected "T2w" "/b/sub-01/ses-01/temp_dcm2niix/img_1.nii.gz",
        Event.copied "T2w" "/b/sub-01/ses-01/anat/sub-01_ses-01_T2w.nii.gz",
        Event.removedTemp, Event.wroteTsv] : List Event) ∧
     eventsBefore
      ([Event.promptedOverwrite, Event.removedExisting, Event.converted,
        Event.selected "T2w" "/b/sub-01/ses-01/temp_dcm2niix/img_1.nii.gz",
        Event.copied "T2w" "/b/sub-01/ses-01/anat/sub-01_ses-01_T2w.nii.gz",
        Event.removedTemp, Event.wroteTsv] : List Event)
      (fun e => e = Event.removedExisting) (fun e => e = Event.converted)) :=
  ⟨(overwrite_prompt_behaviour ["no"] "/b" "sub-01" "ses-01" ["T2w"]
      ["img_1.nii.gz", "img_1.json"] ["0"] false).1 "maybe" ["no"] (by decide),
   ((overwrite_prompt_behaviour ["no"] "/b" "sub-01" "ses-01" ["T2w"]
      ["img_1.nii.gz", "img_1.json"] ["0"] false).2.1 (by decide)).1,
   (overwrite_prompt_behaviour ["yes"] "/b" "sub-01" "ses-01" ["T2w"]
      ["img_1.nii.gz", "img_1.json"] ["0"] false).2.2 (by decide)
     [Event.promptedOverwrite, Event.removedExisting, Event.converted,
       Event.selected "T2w" "/b/sub-01/ses-01/temp_dcm2niix/img_1.nii.gz",
       Event.copied "T2w" "/b/sub-01/ses-01/anat/sub-01_ses-01_T2w.nii.gz",
       Event.removedTemp, Event.wroteTsv] Outcome.finished (by decide)⟩
